import Mathlib

/-!
Verification of the todo-enoth task-tracking application.

The store is a single SQLite table of tasks (`models.ToDo`: integer primary
key `id`, text `task`, boolean `completed` defaulting to false).  We embed a
database state as a `List ToDo` kept in insertion order; SQLite's integer
primary key assigns `max existing id + 1` to a fresh row, which `maxId` models.

Each HTTP handler of `main.py` becomes a function from the store state (and
its parameters) to a response together with the new state.  The handlers for
`GET /complete/{id}`, `POST /edit/{id}` and `GET /delete/{id}` fetch the row
with `.filter(ToDo.id == todo_id).first()` and immediately operate on the
result without a presence check; when the row is absent, `first()` yields
`None` and the next attribute access (or `db.delete(None)`) raises.  We model
these three handlers as `Option`-valued: `none` is the unhandled crash.
-/

/-- Row of the `todo` table (`models.ToDo`): integer primary key `id`,
text `task`, boolean `completed`. -/
structure ToDo where
  id : Int
  task : String
  completed : Bool
deriving DecidableEq, Repr

/-- A database state: the rows of the `todo` table in insertion order. -/
abbrev Store := List ToDo

namespace ToDoApp

/-- Responses a handler can produce: a rendered template page over a single
(possibly absent) todo, a rendered listing page, or an HTTP redirect. -/
inductive HResponse where
  | page (template : String) (todo : Option ToDo)
  | pageList (template : String) (todos : List ToDo)
  | redirect (code : Nat) (url : String)
deriving DecidableEq, Repr

/-- Largest id present in the store (0 when empty); SQLite's integer primary
key assigns `maxId db + 1` to the next inserted row. -/
def maxId : Store → Int
  | [] => 0
  | t :: ts => max t.id (maxId ts)

/-- Embeds `db.query(ToDo).filter(ToDo.id == todo_id).first()`: the first row
whose `id` equals `todo_id`, or `none` when no row matches. -/
def getById : Store → Int → Option ToDo
  | [], _ => none
  | t :: ts, todo_id => if t.id = todo_id then some t else getById ts todo_id

/-- Insertion step of `ORDER BY id DESC`: place `a` before the first element
whose id is not above `a`'s. -/
def insertDesc (a : ToDo) : List ToDo → List ToDo
  | [] => [a]
  | b :: bs => if b.id ≤ a.id then a :: b :: bs else b :: insertDesc a bs

/-- Embeds `db.query(ToDo).order_by(ToDo.id.desc())`: the rows sorted by id
descending. -/
def sortDesc : List ToDo → List ToDo
  | [] => []
  | a :: as => insertDesc a (sortDesc as)

/-- Handler for `GET /` (`home`): renders `index.html` over all rows ordered
by id descending; the store is unchanged. -/
def homeHandler (db : Store) : HResponse × Store :=
  (HResponse.pageList "index.html" (sortDesc db), db)

/-- Store effect of `POST /add`: `ToDo(task=task)` is inserted, the column
default setting `completed` to false and the primary key assigning the next
id. -/
def addStore (db : Store) (task : String) : Store :=
  db ++ [{ id := maxId db + 1, task := task, completed := false }]

/-- Handler for `POST /add` (`add`): inserts the new row, commits, and
redirects to the home page with status 303 See Other. -/
def addHandler (db : Store) (task : String) : HResponse × Store :=
  (HResponse.redirect 303 "/", addStore db task)

/-- Mutation `todo.completed = True` applied to the row `first()` returned:
the first row with the given id gets `completed := true`. -/
def setCompletedFirst (todo_id : Int) : Store → Store
  | [] => []
  | t :: ts =>
      if t.id = todo_id then { t with completed := true } :: ts
      else t :: setCompletedFirst todo_id ts

/-- Handler for `GET /complete/{todo_id}` (`complete`): fetches the row and
sets `todo.completed = True` with no presence check, so a missing row crashes
(`none`); otherwise it commits and redirects 303 to home. -/
def completeHandler (db : Store) (todo_id : Int) : Option (HResponse × Store) :=
  match getById db todo_id with
  | none => none
  | some _ => some (HResponse.redirect 303 "/", setCompletedFirst todo_id db)

/-- Handler for `GET /edit/{todo_id}`: fetches the row (possibly absent) and
renders `edit.html` with it in the template context; no store change and no
dereference of the fetched value in the handler. -/
def editFormHandler (db : Store) (todo_id : Int) : HResponse × Store :=
  (HResponse.page "edit.html" (getById db todo_id), db)

/-- Mutations `todo.task = task; todo.completed = completed` applied to the
row `first()` returned: the first row with the given id gets both fields
overwritten. -/
def updateFirst (todo_id : Int) (task : String) (completed : Bool) : Store → Store
  | [] => []
  | t :: ts =>
      if t.id = todo_id then { t with task := task, completed := completed } :: ts
      else t :: updateFirst todo_id task completed ts

/-- Handler for `POST /edit/{todo_id}`: fetches the row and overwrites `task`
and `completed` with the form values (`completed` defaults to false when the
field is absent) with no presence check, so a missing row crashes (`none`);
otherwise it commits and redirects 303 to home. -/
def editSubmitHandler (db : Store) (todo_id : Int) (task : String)
    (completed : Bool) : Option (HResponse × Store) :=
  match getById db todo_id with
  | none => none
  | some _ => some (HResponse.redirect 303 "/", updateFirst todo_id task completed db)

/-- Effect of `db.delete(todo)` on the row `first()` returned: the first row
with the given id is physically removed. -/
def deleteFirst (todo_id : Int) : Store → Store
  | [] => []
  | t :: ts => if t.id = todo_id then ts else t :: deleteFirst todo_id ts

/-- Handler for `GET /delete/{todo_id}`: fetches the row and passes it to
`db.delete` with no presence check, so a missing row crashes (`none`);
otherwise it commits and redirects 303 to home. -/
def deleteHandler (db : Store) (todo_id : Int) : Option (HResponse × Store) :=
  match getById db todo_id with
  | none => none
  | some _ => some (HResponse.redirect 303 "/", deleteFirst todo_id db)

/-- A finite sequence of `POST /add` requests applied in order. -/
def addAll (db : Store) : List String → Store
  | [] => db
  | s :: ss => addAll (addStore db s) ss

/-- The rows created by a sequence of Add operations, in creation order:
everything past the original rows (Add only ever appends). -/
def addedRows (db : Store) (ss : List String) : Store :=
  (addAll db ss).drop db.length

/-- Lookup fails exactly when no row carries the id. -/
theorem getById_eq_none_iff (db : Store) (i : Int) :
    getById db i = none ↔ ∀ t ∈ db, t.id ≠ i := by
  induction db with
  | nil => simp [getById]
  | cons t ts ih =>
      by_cases h : t.id = i <;> simp [getById, h, ih]

/-- A successful lookup returns a member of the store with the requested id. -/
theorem getById_eq_some (db : Store) (i : Int) (t : ToDo)
    (h : getById db i = some t) : t ∈ db ∧ t.id = i := by
  induction db with
  | nil => simp [getById] at h
  | cons u us ih =>
      by_cases hu : u.id = i
      · simp [getById, hu] at h
        subst h
        exact ⟨List.mem_cons_self u us, hu⟩
      · simp [getById, hu] at h
        rcases ih h with ⟨hmem, hid⟩
        exact ⟨List.mem_cons_of_mem u hmem, hid⟩

/-- Inserting into the descending list is a permutation of consing. -/
theorem insertDesc_perm (a : ToDo) (l : List ToDo) :
    List.Perm (insertDesc a l) (a :: l) := by
  induction l with
  | nil => simp [insertDesc]
  | cons b bs ih =>
      by_cases h : b.id ≤ a.id
      · simp [insertDesc, h]
      · simp only [insertDesc, h, if_false]
        exact (ih.cons b).trans (List.Perm.swap a b bs)

/-- Sorting by descending id is a permutation of the input. -/
theorem sortDesc_perm (l : List ToDo) : List.Perm (sortDesc l) l := by
  induction l with
  | nil => simp [sortDesc]
  | cons a as ih =>
      exact (insertDesc_perm a (sortDesc as)).trans (ih.cons a)

/-- Membership in the descending-insert result. -/
theorem mem_insertDesc (x a : ToDo) (l : List ToDo) :
    x ∈ insertDesc a l ↔ x = a ∨ x ∈ l := by
  constructor
  · intro hx
    have := (insertDesc_perm a l).mem_iff.mp hx
    simpa using this
  · intro hx
    apply (insertDesc_perm a l).mem_iff.mpr
    simpa using hx

/-- Descending insertion preserves the descending-id ordering. -/
theorem insertDesc_pairwise (a : ToDo) (l : List ToDo)
    (hl : l.Pairwise (fun x y => y.id ≤ x.id)) :
    (insertDesc a l).Pairwise (fun x y => y.id ≤ x.id) := by
  induction l with
  | nil => simp [insertDesc]
  | cons b bs ih =>
      rcases List.pairwise_cons.mp hl with ⟨hb, hbs⟩
      by_cases h : b.id ≤ a.id
      · simp only [insertDesc, h, if_true]
        refine List.pairwise_cons.mpr ⟨?_, hl⟩
        intro y hy
        rcases List.mem_cons.mp hy with rfl | hy'
        · exact h
        · exact le_trans (hb y hy') h
      · simp only [insertDesc, h, if_false]
        refine List.pairwise_cons.mpr ⟨?_, ih hbs⟩
        intro y hy
        rcases (mem_insertDesc y a bs).mp hy with rfl | hy'
        · exact le_of_not_le h
        · exact hb y hy'

/-- The listing query yields rows ordered by id descending. -/
theorem sortDesc_pairwise (l : List ToDo) :
    (sortDesc l).Pairwise (fun x y => y.id ≤ x.id) := by
  induction l with
  | nil => simp [sortDesc]
  | cons a as ih => exact insertDesc_pairwise a (sortDesc as) ih

/-- Every row's id is bounded by the store's maximal id. -/
theorem id_le_maxId (db : Store) (t : ToDo) (h : t ∈ db) : t.id ≤ maxId db := by
  induction db with
  | nil => simp at h
  | cons u us ih =>
      rcases List.mem_cons.mp h with rfl | h'
      · exact le_max_left _ _
      · exact le_trans (ih h') (le_max_right _ _)

/-- Appending one row takes the maximum of the old bound and the new id. -/
theorem maxId_append_single (db : Store) (x : ToDo) :
    maxId (db ++ [x]) = max (maxId db) x.id := by
  induction db with
  | nil => simp [maxId, max_comm]
  | cons u us ih => simp [maxId, ih, max_assoc]

/-- Adding a row advances the maximal id to the fresh id. -/
theorem maxId_addStore (db : Store) (s : String) :
    maxId (addStore db s) = maxId db + 1 := by
  rw [addStore, maxId_append_single]
  show max (maxId db) (maxId db + 1) = maxId db + 1
  exact max_eq_right (by omega)

/-- The rows a sequence of Adds creates, starting from id bound `m`:
consecutive ids `m+1, m+2, ...`, the given descriptions, `completed` false. -/
def freshRows (m : Int) : List String → Store
  | [] => []
  | s :: ss => { id := m + 1, task := s, completed := false } :: freshRows (m + 1) ss

/-- A sequence of Adds appends exactly the fresh rows. -/
theorem addAll_eq (ss : List String) (db : Store) :
    addAll db ss = db ++ freshRows (maxId db) ss := by
  induction ss generalizing db with
  | nil => simp [addAll, freshRows]
  | cons s ss ih =>
      show addAll (addStore db s) ss = _
      rw [ih (addStore db s), maxId_addStore]
      simp [addStore, freshRows]

/-- The added rows of a sequence of Adds are the fresh rows. -/
theorem addedRows_eq (db : Store) (ss : List String) :
    addedRows db ss = freshRows (maxId db) ss := by
  rw [addedRows, addAll_eq, List.drop_left]

/-- Every fresh row's id exceeds the starting bound. -/
theorem freshRows_id_gt (m : Int) (ss : List String) (t : ToDo)
    (h : t ∈ freshRows m ss) : m < t.id := by
  induction ss generalizing m with
  | nil => simp [freshRows] at h
  | cons s ss ih =>
      rcases List.mem_cons.mp h with rfl | h'
      · simp
      · have := ih (m + 1) h'
        omega

/-- Fresh rows carry strictly increasing ids. -/
theorem freshRows_pairwise_lt (m : Int) (ss : List String) :
    (freshRows m ss).Pairwise (fun x y => x.id < y.id) := by
  induction ss generalizing m with
  | nil => simp [freshRows]
  | cons s ss ih =>
      refine List.pairwise_cons.mpr ⟨?_, ih (m + 1)⟩
      intro y hy
      have := freshRows_id_gt (m + 1) ss y hy
      simp only
      omega

/-- Inserting a row whose id is below everything in a descending list puts it
at the end. -/
theorem insertDesc_eq_append (a : ToDo) (l : List ToDo)
    (h : ∀ x ∈ l, a.id < x.id) : insertDesc a l = l ++ [a] := by
  induction l with
  | nil => simp [insertDesc]
  | cons b bs ih =>
      have hb : a.id < b.id := h b (List.mem_cons_self b bs)
      have : ¬ b.id ≤ a.id := by omega
      simp only [insertDesc, this, if_false, List.cons_append, List.cons.injEq,
        true_and]
      exact ih (fun x hx => h x (List.mem_cons_of_mem b hx))

/-- Sorting a strictly-ascending list by descending id reverses it. -/
theorem sortDesc_of_ascending (l : List ToDo)
    (h : l.Pairwise (fun x y => x.id < y.id)) : sortDesc l = l.reverse := by
  induction l with
  | nil => simp [sortDesc]
  | cons a as ih =>
      rcases List.pairwise_cons.mp h with ⟨ha, has⟩
      show insertDesc a (sortDesc as) = _
      rw [ih has, insertDesc_eq_append]
      · simp
      · intro x hx
        exact ha x (List.mem_reverse.mp hx)

/-- Lookup after the Complete mutation: the fetched row with `completed` set. -/
theorem getById_setCompletedFirst (db : Store) (i : Int) :
    getById (setCompletedFirst i db) i =
      Option.map (fun t => { t with completed := true }) (getById db i) := by
  induction db with
  | nil => simp [setCompletedFirst, getById]
  | cons t ts ih =>
      by_cases h : t.id = i
      · simp [setCompletedFirst, getById, h]
      · simp [setCompletedFirst, getById, h, ih]

/-- Lookup after the Edit mutation: the fetched row with both fields set. -/
theorem getById_updateFirst (db : Store) (i : Int) (s : String) (c : Bool) :
    getById (updateFirst i s c db) i =
      Option.map (fun t => { t with task := s, completed := c }) (getById db i) := by
  induction db with
  | nil => simp [updateFirst, getById]
  | cons t ts ih =>
      by_cases h : t.id = i
      · simp [updateFirst, getById, h]
      · simp [updateFirst, getById, h, ih]

/-- The Complete mutation is idempotent on the store. -/
theorem setCompletedFirst_idem (db : Store) (i : Int) :
    setCompletedFirst i (setCompletedFirst i db) = setCompletedFirst i db := by
  induction db with
  | nil => simp [setCompletedFirst]
  | cons t ts ih =>
      by_cases h : t.id = i
      · simp [setCompletedFirst, h]
      · simp [setCompletedFirst, h, ih]

/-- Removing the fetched row removes the id entirely when ids are unique. -/
theorem getById_deleteFirst (db : Store) (i : Int)
    (hnd : (db.map ToDo.id).Nodup) :
    getById (deleteFirst i db) i = none := by
  induction db with
  | nil => simp [deleteFirst, getById]
  | cons t ts ih =>
      have hni : t.id ∉ ts.map ToDo.id := by
        simp only [List.map_cons, List.nodup_cons] at hnd
        exact hnd.1
      have hts : (ts.map ToDo.id).Nodup := by
        simp only [List.map_cons, List.nodup_cons] at hnd
        exact hnd.2
      by_cases h : t.id = i
      · simp only [deleteFirst, h, if_true]
        rw [getById_eq_none_iff]
        intro u hu hui
        apply hni
        rw [h, ← hui]
        exact List.mem_map_of_mem ToDo.id hu
      · simp [deleteFirst, getById, h, ih hts]

/-- Deleting a present row shrinks the store by exactly one. -/
theorem deleteFirst_length (db : Store) (i : Int) (t : ToDo)
    (h : getById db i = some t) :
    (deleteFirst i db).length + 1 = db.length := by
  induction db with
  | nil => simp [getById] at h
  | cons u us ih =>
      by_cases hu : u.id = i
      · simp [deleteFirst, hu]
      · simp only [getById, hu, if_false] at h
        simp [deleteFirst, hu, ih h]

/-- The Edit mutation never changes the number of rows. -/
theorem updateFirst_length (db : Store) (i : Int) (s : String) (c : Bool) :
    (updateFirst i s c db).length = db.length := by
  induction db with
  | nil => simp [updateFirst]
  | cons t ts ih =>
      by_cases h : t.id = i <;> simp [updateFirst, h, ih]

/-- Lookup skips over rows that do not carry the id. -/
theorem getById_append (db l : Store) (i : Int) (h : ∀ t ∈ db, t.id ≠ i) :
    getById (db ++ l) i = getById l i := by
  induction db with
  | nil => simp
  | cons u us ih =>
      have hu : u.id ≠ i := h u (List.mem_cons_self u us)
      simp only [List.cons_append, getById, hu, if_false]
      exact ih (fun t ht => h t (List.mem_cons_of_mem u ht))

/-- C1: a Complete, Edit-submit or Delete request whose todo_id matches no
row fetches the absent row and operates on it with no presence check, so it
crashes (`none`): it never silently succeeds or fabricates a row. -/
theorem missing_id_crashes (db : Store) (i : Int) (s : String) (c : Bool)
    (h : getById db i = none) :
    completeHandler db i = none ∧ editSubmitHandler db i s c = none ∧
    deleteHandler db i = none := by
  refine ⟨?_, ?_, ?_⟩ <;>
    simp [completeHandler, editSubmitHandler, deleteHandler, h]

/-- Concrete run of `missing_id_crashes`: id 2 is absent from a one-row
store, and all three id-addressed mutations crash on it. -/
theorem missing_id_crashes_witness :
    getById [⟨1, "Buy milk", false⟩] 2 = none ∧
    (completeHandler [⟨1, "Buy milk", false⟩] 2 = none ∧
      editSubmitHandler [⟨1, "Buy milk", false⟩] 2 "x" true = none ∧
      deleteHandler [⟨1, "Buy milk", false⟩] 2 = none) :=
  ⟨rfl, missing_id_crashes [⟨1, "Buy milk", false⟩] 2 "x" true rfl⟩

/-- C2: for every description (the empty string included) the Add handler
appends exactly one row carrying that description with `completed` false,
responds with a 303 see-other redirect to the listing page, and the fresh row
is found under its new id. -/
theorem add_creates_row_and_redirects (db : Store) (s : String) :
    (addHandler db s).1 = HResponse.redirect 303 "/" ∧
    (addHandler db s).2 =
      db ++ [{ id := maxId db + 1, task := s, completed := false }] ∧
    getById (addHandler db s).2 (maxId db + 1) =
      some { id := maxId db + 1, task := s, completed := false } := by
  refine ⟨rfl, rfl, ?_⟩
  show getById (db ++ [{ id := maxId db + 1, task := s, completed := false }])
      (maxId db + 1) = _
  rw [getById_append]
  · simp [getById]
  · intro t ht
    have := id_le_maxId db t ht
    omega

/-- C3: the listing handler renders every stored task ordered by id
descending: the rendered sequence is a permutation of the store (nothing
omitted, nothing duplicated) and is pairwise descending in id. -/
theorem home_lists_all_desc (db : Store) :
    homeHandler db = (HResponse.pageList "index.html" (sortDesc db), db) ∧
    List.Perm (sortDesc db) db ∧
    (sortDesc db).Pairwise (fun a b => b.id ≤ a.id) :=
  ⟨rfl, sortDesc_perm db, sortDesc_pairwise db⟩

/-- C4: on an existing id the Edit-submit handler overwrites both the task
text and the completed flag with exactly the submitted form values, redirects
303, and a subsequent fetch returns the new values with the id unchanged. -/
theorem edit_submit_overwrites (db : Store) (i : Int) (s : String) (c : Bool)
    (t : ToDo) (h : getById db i = some t) :
    editSubmitHandler db i s c =
      some (HResponse.redirect 303 "/", updateFirst i s c db) ∧
    getById (updateFirst i s c db) i =
      some { id := t.id, task := s, completed := c } ∧
    (updateFirst i s c db).length = db.length := by
  refine ⟨by simp [editSubmitHandler, h], ?_, updateFirst_length db i s c⟩
  rw [getById_updateFirst, h]
  rfl

/-- Concrete run of `edit_submit_overwrites`: editing the only row to
"Buy oat milk"/completed replaces both fields, and the fetch sees them. -/
theorem edit_submit_overwrites_witness :
    getById [⟨1, "Buy milk", false⟩] 1 = some ⟨1, "Buy milk", false⟩ ∧
    (editSubmitHandler [⟨1, "Buy milk", false⟩] 1 "Buy oat milk" true =
        some (HResponse.redirect 303 "/",
          updateFirst 1 "Buy oat milk" true [⟨1, "Buy milk", false⟩]) ∧
      getById (updateFirst 1 "Buy oat milk" true [⟨1, "Buy milk", false⟩]) 1 =
        some ⟨1, "Buy oat milk", true⟩ ∧
      (updateFirst 1 "Buy oat milk" true [⟨1, "Buy milk", false⟩]).length =
        [(⟨1, "Buy milk", false⟩ : ToDo)].length) :=
  ⟨rfl, edit_submit_overwrites [⟨1, "Buy milk", false⟩] 1 "Buy oat milk" true
    ⟨1, "Buy milk", false⟩ rfl⟩

/-- C5: on an existing id the Complete handler sets the completed flag to
true, leaves the task text and id unchanged, and the changed row appears in a
subsequent descending listing. -/
theorem complete_sets_flag (db : Store) (i : Int) (t : ToDo)
    (h : getById db i = some t) :
    completeHandler db i =
      some (HResponse.redirect 303 "/", setCompletedFirst i db) ∧
    getById (setCompletedFirst i db) i =
      some { id := t.id, task := t.task, completed := true } ∧
    ({ id := t.id, task := t.task, completed := true } : ToDo) ∈
      sortDesc (setCompletedFirst i db) := by
  have h2 : getById (setCompletedFirst i db) i =
      some { id := t.id, task := t.task, completed := true } := by
    rw [getById_setCompletedFirst, h]
    rfl
  refine ⟨by simp [completeHandler, h], h2, ?_⟩
  exact ((sortDesc_perm _).mem_iff).mpr (getById_eq_some _ _ _ h2).1

/-- Concrete run of `complete_sets_flag` on a one-row store. -/
theorem complete_sets_flag_witness :
    getById [⟨1, "Buy milk", false⟩] 1 = some ⟨1, "Buy milk", false⟩ ∧
    (completeHandler [⟨1, "Buy milk", false⟩] 1 =
        some (HResponse.redirect 303 "/",
          setCompletedFirst 1 [⟨1, "Buy milk", false⟩]) ∧
      getById (setCompletedFirst 1 [⟨1, "Buy milk", false⟩]) 1 =
        some ⟨1, "Buy milk", true⟩ ∧
      (⟨1, "Buy milk", true⟩ : ToDo) ∈
        sortDesc (setCompletedFirst 1 [⟨1, "Buy milk", false⟩])) :=
  ⟨rfl, complete_sets_flag [⟨1, "Buy milk", false⟩] 1 ⟨1, "Buy milk", false⟩ rfl⟩

/-- C6: on an existing id (ids unique, as the primary key guarantees) the
Delete handler physically removes the row: the fetch now fails, the listing
no longer carries the id, and the store shrinks by exactly one row. -/
theorem delete_removes_row (db : Store) (i : Int) (t : ToDo)
    (hnd : (db.map ToDo.id).Nodup) (h : getById db i = some t) :
    deleteHandler db i =
      some (HResponse.redirect 303 "/", deleteFirst i db) ∧
    getById (deleteFirst i db) i = none ∧
    i ∉ (sortDesc (deleteFirst i db)).map ToDo.id ∧
    (deleteFirst i db).length + 1 = db.length := by
  refine ⟨by simp [deleteHandler, h], getById_deleteFirst db i hnd, ?_,
    deleteFirst_length db i t h⟩
  intro hmem
  rcases List.mem_map.mp hmem with ⟨u, hu, hui⟩
  have hm : u ∈ deleteFirst i db := ((sortDesc_perm _).mem_iff).mp hu
  exact (getById_eq_none_iff _ _).mp (getById_deleteFirst db i hnd) u hm hui

/-- Concrete run of `delete_removes_row` on a two-row store. -/
theorem delete_removes_row_witness :
    (([⟨1, "a", false⟩, ⟨2, "b", true⟩] : Store).map ToDo.id).Nodup ∧
    getById [⟨1, "a", false⟩, ⟨2, "b", true⟩] 1 = some ⟨1, "a", false⟩ ∧
    (deleteHandler [⟨1, "a", false⟩, ⟨2, "b", true⟩] 1 =
        some (HResponse.redirect 303 "/",
          deleteFirst 1 [⟨1, "a", false⟩, ⟨2, "b", true⟩]) ∧
      getById (deleteFirst 1 [⟨1, "a", false⟩, ⟨2, "b", true⟩]) 1 = none ∧
      (1 : Int) ∉
        (sortDesc (deleteFirst 1 [⟨1, "a", false⟩, ⟨2, "b", true⟩])).map ToDo.id ∧
      (deleteFirst 1 [⟨1, "a", false⟩, ⟨2, "b", true⟩]).length + 1 =
        ([⟨1, "a", false⟩, ⟨2, "b", true⟩] : Store).length) :=
  ⟨by decide, rfl, delete_removes_row [⟨1, "a", false⟩, ⟨2, "b", true⟩] 1
    ⟨1, "a", false⟩ (by decide) rfl⟩

/-- C7: any finite sequence of Adds from any starting state assigns pairwise
distinct ids to the created rows, and their descending-id listing order is
exactly the reverse of their creation order. -/
theorem add_sequence_unique_ids_reverse_order (db : Store) (ss : List String) :
    ((addedRows db ss).map ToDo.id).Nodup ∧
    sortDesc (addedRows db ss) = (addedRows db ss).reverse := by
  rw [addedRows_eq]
  constructor
  · show ((freshRows (maxId db) ss).map ToDo.id).Pairwise (fun a b => a ≠ b)
    rw [List.pairwise_map]
    exact (freshRows_pairwise_lt _ _).imp (fun h => ne_of_lt h)
  · exact sortDesc_of_ascending _ (freshRows_pairwise_lt _ _)

/-- C8: on an existing id, Complete is idempotent: running the handler on its
own output state yields exactly the first run's response and state. -/
theorem complete_idempotent (db : Store) (i : Int) (t : ToDo)
    (h : getById db i = some t) :
    Option.bind (completeHandler db i) (fun p => completeHandler p.2 i) =
      completeHandler db i := by
  have h1 : completeHandler db i =
      some (HResponse.redirect 303 "/", setCompletedFirst i db) := by
    simp [completeHandler, h]
  rw [h1]
  show completeHandler (setCompletedFirst i db) i = _
  have h2 : getById (setCompletedFirst i db) i =
      some { t with completed := true } := by
    rw [getById_setCompletedFirst, h]
    rfl
  simp [completeHandler, h2, setCompletedFirst_idem]

/-- Concrete run of `complete_idempotent`: completing row 1 twice equals
completing it once. -/
theorem complete_idempotent_witness :
    getById [⟨1, "Buy milk", false⟩] 1 = some ⟨1, "Buy milk", false⟩ ∧
    Option.bind (completeHandler [⟨1, "Buy milk", false⟩] 1)
        (fun p => completeHandler p.2 1) =
      completeHandler [⟨1, "Buy milk", false⟩] 1 :=
  ⟨rfl, complete_idempotent [⟨1, "Buy milk", false⟩] 1 ⟨1, "Buy milk", false⟩ rfl⟩

/-- C9: on a todo_id matching no row, the Edit-form handler does not
dereference the missing row: it renders the edit page with an absent (none)
todo in the template context and leaves the store unchanged. -/
theorem edit_form_missing_renders_none (db : Store) (i : Int)
    (h : getById db i = none) :
    editFormHandler db i = (HResponse.page "edit.html" none, db) := by
  simp [editFormHandler, h]

/-- Concrete run of `edit_form_missing_renders_none`: id 2 is absent, the
edit page still renders with a none todo and the store is untouched. -/
theorem edit_form_missing_renders_none_witness :
    getById [⟨1, "Buy milk", false⟩] 2 = none ∧
    editFormHandler [⟨1, "Buy milk", false⟩] 2 =
      (HResponse.page "edit.html" none, [⟨1, "Buy milk", false⟩]) :=
  ⟨rfl, edit_form_missing_renders_none [⟨1, "Buy milk", false⟩] 2 rfl⟩

/-- C10: the Add handler leaves every pre-existing row unchanged: the old
store is exactly the first `db.length` rows of the new one, and exactly one
row was appended. -/
theorem add_preserves_existing_rows (db : Store) (s : String) :
    ((addHandler db s).2).take db.length = db ∧
    ((addHandler db s).2).length = db.length + 1 := by
  constructor
  · show (addStore db s).take db.length = db
    rw [addStore, List.take_left]
  · show (addStore db s).length = db.length + 1
    simp [addStore]

end ToDoApp
